import Mathlib

/-!
Verification development for the TIC-80 land generator (`src/land.rs`).

The program stores a destructible 2D terrain as 8×8-pixel bit chunks inside the
TIC-80 MAP memory, a fixed grid of byte cells accessed through the host
primitives `mget`/`mset`.  The definitions below are a shallow embedding of
`land.rs`: the MAP memory becomes an explicit state value threaded through the
operations, Rust `i32` values become `Int` (with truncating division `Int.tdiv`
/ `Int.tmod` where the source divides), `u32`/`u64` values become `Nat` with
explicit reductions mod `2^32` where the width matters, and the `assert!` in
the constructor becomes an `Option` result.
-/

namespace Tic80Land

/-- Modelled from the spec: the host linear store (the TIC-80 MAP memory used by
the missing `tic80` host module), a grid of byte cells addressed by
`(column, row)` integer pairs (spec §6: "linear-store cell read/write"). -/
def MapMem : Type := Int × Int → Nat

/-- Modelled from the spec: host linear-store cell write (`mset`); a cell is a
byte, so the stored value is reduced to its low 8 bits. -/
def mset (m : MapMem) (x y : Int) (v : Int) : MapMem :=
  fun p => if p = (x, y) then (v % 256).toNat else m p

/-- Modelled from the spec: host linear-store cell read (`mget`). -/
def mget (m : MapMem) (x y : Int) : Nat := m (x, y)

/-- Struct to describe a land chunk with size of 8x8 pixels, stored as 8
sequential MAP cells (`land.rs:13`). -/
structure LandChunk where
  map_x : Int
  map_y : Int

/-- Constructor `LandChunk::new` (`land.rs:19`). -/
def LandChunk.new (map_x map_y : Int) : LandChunk := ⟨map_x, map_y⟩

/-- Get the fullness of a chunk pixel at `(x, y)` (`LandChunk::get`,
`land.rs:24`): `((mget(map_x + y, map_y) >> x) & 1) != 0`. -/
def LandChunk.get (c : LandChunk) (m : MapMem) (x y : Int) : Bool :=
  ((mget m (c.map_x + y) c.map_y >>> x.toNat) &&& 1) != 0

/-- Fill or empty a chunk pixel at `(x, y)` (`LandChunk::set`, `land.rs:30`).
The 32-bit complement `!(1 << x)` is written as `4294967295 ^^^ (1 <<< x)`. -/
def LandChunk.set (c : LandChunk) (m : MapMem) (x y : Int) (state : Bool) : MapMem :=
  let val := mget m (c.map_x + y) c.map_y
  let val2 := if state then val ||| (1 <<< x.toNat)
              else val &&& (4294967295 ^^^ (1 <<< x.toNat))
  mset m (c.map_x + y) c.map_y (val2 : Int)

/-- Get the full mask of the chunk (`LandChunk::get_mask`, `land.rs:41`):
`for i in 0..8 { mask = (mask << 8) | mget(map_x + i, map_y) }`. -/
def LandChunk.get_mask (c : LandChunk) (m : MapMem) : Nat :=
  (List.range 8).foldl
    (fun mask (i : Nat) => (mask <<< 8) ||| mget m (c.map_x + (i : Int)) c.map_y) 0

/-- Set the full mask of the chunk (`LandChunk::set_mask`, `land.rs:51`):
`for i in 0..8 { mset(map_x + i, map_y, mask & 0xff); mask >>= 8 }`.  The fold
state is the pair (memory, remaining mask). -/
def LandChunk.set_mask (c : LandChunk) (m : MapMem) (mask : Nat) : MapMem :=
  ((List.range 8).foldl
    (fun (s : MapMem × Nat) (i : Nat) =>
      (mset s.1 (c.map_x + (i : Int)) c.map_y ((s.2 &&& 255 : Nat) : Int), s.2 >>> 8))
    (m, mask)).1

/-- Land texture description (`land.rs:95`). -/
structure LandTexture where
  spr_id : Int
  width : Int
  height : Int

/-- Chunk address offset for reservation (`LAND_CHUNK_ADDR_RESERVE = 0x10`,
`land.rs:109`). -/
def LAND_CHUNK_ADDR_RESERVE : Int := 16

/-- The terrain (`land.rs:113`).  `seed` is a `u32`; theorems that depend on the
32-bit width carry the hypothesis `seed < 2^32`. -/
structure Land where
  width : Int
  height : Int
  seed : Nat
  covered : Bool
  texture : LandTexture
  water_height : Int

/-- Size of the land in pixels (`Land::size`, `land.rs:178`). -/
def Land.size (l : Land) : Int × Int := (l.width * 8, l.height * 8)

/-- Check if point `(x, y)` is in the land boundaries (`Land::in_bounds`,
`land.rs:188`). -/
def Land.in_bounds (l : Land) (x y : Int) : Bool :=
  (decide (0 ≤ x) && decide (x < l.width * 8)) &&
    (decide (0 ≤ y) && decide (y < l.height * 8))

/-- Get the chunk at land point `(x, y)` (`Land::chunk`, `land.rs:193`). -/
def Land.chunk (l : Land) (x y : Int) : Option LandChunk :=
  let chunk_x := x.tdiv 8
  let chunk_y := y.tdiv 8
  if l.in_bounds x y then
    let addr := LAND_CHUNK_ADDR_RESERVE + (chunk_y * l.width + chunk_x) * 8
    some (LandChunk.new (addr.tmod 240) (addr.tdiv 240))
  else
    none

/-- Get the fullness of a land pixel at `(x, y)` (`Land::get`, `land.rs:204`). -/
def Land.get (l : Land) (m : MapMem) (x y : Int) : Bool :=
  match l.chunk x y with
  | some ch => ch.get m (x.tmod 8) (y.tmod 8)
  | none => l.covered

/-- Fill or empty a land pixel at `(x, y)` (`Land::set`, `land.rs:213`). -/
def Land.set (l : Land) (m : MapMem) (x y : Int) (state : Bool) : MapMem :=
  match l.chunk x y with
  | some ch => ch.set m (x.tmod 8) (y.tmod 8) state
  | none => m

/-- List of the integers in `[lo, hi)` in the order a Rust `lo..hi` range
iterates them. -/
def rangeList (lo hi : Int) : List Int :=
  (List.range (hi - lo).toNat).map (fun (k : Nat) => lo + (k : Int))

/-- Set the state of pixels inside a circle (`Land::set_circle`, `land.rs:220`);
`(-r..r).cartesian_product(-r..r)` iterates `i` in the outer loop. -/
def Land.set_circle (l : Land) (m : MapMem) (x y r : Int) (state : Bool) : MapMem :=
  let r2 := r * r
  (rangeList (-r) r).foldl
    (fun m1 i =>
      (rangeList (-r) r).foldl
        (fun m2 j => if i * i + j * j ≤ r2 then l.set m2 (x + i) (y + j) state else m2)
        m1)
    m

/-- Iterator over the two land dimensions with the step of 8
(`Land::chunk_coordinates`, `land.rs:230`); `(0..w*8).step_by(8)` yields exactly
the multiples `k*8` for `k ∈ [0, w)`, with `x` in the outer loop. -/
def Land.chunk_coordinates (l : Land) : List (Int × Int) :=
  ((rangeList 0 l.width).map (fun k => k * 8)).flatMap
    (fun cx => ((rangeList 0 l.height).map (fun k => k * 8)).map (fun cy => (cx, cy)))

/-- Clear the entire land (`Land::clear`, `land.rs:256`). -/
def Land.clear (l : Land) (m : MapMem) : MapMem :=
  l.chunk_coordinates.foldl
    (fun mm p =>
      match l.chunk p.1 p.2 with
      | some c => c.set_mask mm 0
      | none => mm)
    m

/-- Save data in the MAP memory (`Land::save_in_map`, `land.rs:163`).  In the
seed loop, `(self.seed >> (i*8)) as i32` keeps only the low byte after the
`& 0xff`, which the `as i32` cast preserves, so the cast is dropped. -/
def Land.save_in_map (l : Land) (m : MapMem) : MapMem :=
  let m1 := mset m 0 0 (Int.land l.width 255)
  let m2 := mset m1 1 0 (Int.land l.height 255)
  let m3 := (List.range 4).foldl
    (fun mm (i : Nat) =>
      let val : Int := ((l.seed >>> (i * 8) : Nat) : Int)
      mset mm (5 - (i : Int)) 0 (Int.land val 255))
    m2
  let texture_size := Int.lor (l.texture.width <<< (4 : Int)) l.texture.height
  let flags : Int := if l.covered then 1 else 0
  let m4 := mset m3 6 0 l.texture.spr_id
  let m5 := mset m4 7 0 texture_size
  mset m5 8 0 flags

/-- Construct a land from data in the MAP memory (`Land::from_map`,
`land.rs:133`).  The seed accumulator is a `u32`, modelled by reducing mod
`2^32` after each `(seed << 8) | byte` step. -/
def Land.from_map (m : MapMem) : Land :=
  let width : Int := mget m 0 0
  let height : Int := mget m 1 0
  let seed : Nat := (List.range 4).foldl
    (fun s (i : Nat) => ((s <<< 8) ||| mget m (2 + (i : Int)) 0) % 4294967296) 0
  let texture : LandTexture :=
    ⟨(mget m 6 0 : Nat), ((mget m 7 0) >>> 4 : Nat), ((mget m 7 0) &&& 15 : Nat)⟩
  let water_height := height * 8 - 8
  let covered := ((mget m 8 0) &&& 1) != 0
  ⟨width, height, seed, covered, texture, water_height⟩

/-- Empty land constructor (`Land::new`, `land.rs:124`).  The
`assert!(width * height * 8 + LAND_CHUNK_ADDR_RESERVE <= 32640)` is modelled by
returning `none` (the fatal abort) when the asserted condition fails. -/
def Land.new (width height : Int) (texture : LandTexture) (m : MapMem) :
    Option (Land × MapMem) :=
  if width * height * 8 + LAND_CHUNK_ADDR_RESERVE ≤ 32640 then
    let water_height := height * 8 - 8
    let land : Land := ⟨width, height, 0, false, texture, water_height⟩
    some (land, land.save_in_map m)
  else
    none

/-- Generate a random land (`Land::generate`, `land.rs:288`).  The
floating-point simplex-noise pipeline (the computation of `h` from `x_norm`,
`k1`, `k2`, `h0`, `board_w` and `board_constrain`) cannot be shallowly
embedded; in the source it is a pure function of the seed, the pixel width
`land_w`, the water height (through the budget `(water_height - 2) as f64`) and
the column `x`, and it is abstracted here as the argument `np` giving the value
`h as i32` for each column.  Everything after that cast follows the source:
`y_start = min(h as i32, land_h - 1)` and the fill loop `y_start..land_h` with
`land_h = height * 8`. -/
def Land.generate (np : Nat → Int → Int → Int → Int) (l : Land) (m : MapMem) : MapMem :=
  let m1 := l.clear m
  let land_w := l.width * 8
  let land_h := l.height * 8
  (rangeList 0 land_w).foldl
    (fun mm x =>
      let h := np l.seed land_w l.water_height x
      let y_start := min h (land_h - 1)
      (rangeList y_start land_h).foldl (fun mm2 y => l.set mm2 x y true) mm)
    m1

/-- Definition following the spec's words for claim C7, for comparison with
`Land.generate`: spec §4.3 step (2) derives "the generation height budget as
`water_height - 2`" and step (10) fills each column "from `min(h,
height_budget-1)` down to the bottom of the generation budget", i.e. the fill
loop runs over `[min(h, budget - 1), budget)` with `budget = water_height - 2`
instead of the source's `[min(h, land_h - 1), land_h)` with
`land_h = height * 8`. -/
def Land.generateSpecC7 (np : Nat → Int → Int → Int → Int) (l : Land) (m : MapMem) :
    MapMem :=
  let m1 := l.clear m
  let land_w := l.width * 8
  let budget := l.water_height - 2
  (rangeList 0 land_w).foldl
    (fun mm x =>
      let h := np l.seed land_w l.water_height x
      let y_start := min h (budget - 1)
      (rangeList y_start budget).foldl (fun mm2 y => l.set mm2 x y true) mm)
    m1

/-! ### Basic lemmas about the store, ranges and bits -/

theorem mset_apply_self (m : MapMem) (x y : Int) (v : Int) :
    mset m x y v (x, y) = (v % 256).toNat := by
  simp [mset]

theorem mset_apply_ne (m : MapMem) (x y : Int) (v : Int) {p : Int × Int}
    (h : p ≠ (x, y)) : mset m x y v p = m p := by
  simp [mset, h]

theorem mget_mset_self (m : MapMem) (x y : Int) (v : Int) :
    mget (mset m x y v) x y = (v % 256).toNat := mset_apply_self m x y v

theorem mget_mset_ne (m : MapMem) (x y x2 y2 : Int) (v : Int)
    (h : (x2, y2) ≠ (x, y)) : mget (mset m x y v) x2 y2 = mget m x2 y2 :=
  mset_apply_ne m x y v h

theorem mem_rangeList {a lo hi : Int} : a ∈ rangeList lo hi ↔ lo ≤ a ∧ a < hi := by
  unfold rangeList
  rw [List.mem_map]
  constructor
  · rintro ⟨k, hk, he⟩
    rw [List.mem_range] at hk
    omega
  · intro h
    exact ⟨(a - lo).toNat, List.mem_range.mpr (by omega), by omega⟩

theorem getBit_eq_testBit (v i : Nat) : (((v >>> i) &&& 1) != 0) = v.testBit i := by
  rw [Nat.testBit, Nat.and_comm]

theorem natCast_mod256_toNat (v : Nat) : (((v : Int)) % 256).toNat = v % 256 := by
  omega

theorem testBit_mod256 (v i : Nat) (h : i < 8) : (v % 256).testBit i = v.testBit i := by
  rw [show (256 : Nat) = 2 ^ 8 from rfl, Nat.testBit_mod_two_pow]
  simp [h]

/-- Value written into its cell by `LandChunk.set`: the old byte with bit `bit`
set or cleared (helper naming the `val2` expression of the source). -/
def setVal (old bit : Nat) (state : Bool) : Nat :=
  if state then old ||| (1 <<< bit) else old &&& (4294967295 ^^^ (1 <<< bit))

theorem setVal_testBit_self (old bit : Nat) (s : Bool) (h : bit < 32) :
    (setVal old bit s).testBit bit = s := by
  have h1 : (1 : Nat) <<< bit = 2 ^ bit := by rw [Nat.shiftLeft_eq, one_mul]
  have h255 : (4294967295 : Nat) = 2 ^ 32 - 1 := by norm_num
  cases s
  · show (old &&& (4294967295 ^^^ (1 <<< bit))).testBit bit = false
    rw [h1, h255, Nat.testBit_and, Nat.testBit_xor, Nat.testBit_two_pow_sub_one,
      Nat.testBit_two_pow_self]
    simp [h]
  · show (old ||| (1 <<< bit)).testBit bit = true
    rw [h1, Nat.testBit_or, Nat.testBit_two_pow_self]
    simp

theorem setVal_testBit_other (old bit i : Nat) (s : Bool) (h : i ≠ bit) (h32 : i < 32) :
    (setVal old bit s).testBit i = old.testBit i := by
  have h1 : (1 : Nat) <<< bit = 2 ^ bit := by rw [Nat.shiftLeft_eq, one_mul]
  have h255 : (4294967295 : Nat) = 2 ^ 32 - 1 := by norm_num
  cases s
  · show (old &&& (4294967295 ^^^ (1 <<< bit))).testBit i = old.testBit i
    rw [h1, h255, Nat.testBit_and, Nat.testBit_xor, Nat.testBit_two_pow_sub_one,
      Nat.testBit_two_pow_of_ne (Ne.symm h)]
    simp [h32]
  · show (old ||| (1 <<< bit)).testBit i = old.testBit i
    rw [h1, Nat.testBit_or, Nat.testBit_two_pow_of_ne (Ne.symm h)]
    simp

/-! ### Chunk geometry -/

/-- Store address of the chunk owning pixel `(x, y)`: the `addr` computed in
`Land::chunk`. -/
def chunkAddr (l : Land) (x y : Int) : Int :=
  LAND_CHUNK_ADDR_RESERVE + ((y.tdiv 8) * l.width + x.tdiv 8) * 8

/-- Store cell read and written by `Land.get` / `Land.set` at an in-bounds
pixel `(x, y)`. -/
def cellOf (l : Land) (x y : Int) : Int × Int :=
  ((chunkAddr l x y).tmod 240 + y.tmod 8, (chunkAddr l x y).tdiv 240)

theorem in_bounds_iff {l : Land} {x y : Int} :
    l.in_bounds x y = true ↔ 0 ≤ x ∧ x < l.width * 8 ∧ 0 ≤ y ∧ y < l.height * 8 := by
  simp [Land.in_bounds, and_assoc]

theorem chunk_eq_some {l : Land} {x y : Int} (h : l.in_bounds x y = true) :
    l.chunk x y = some ⟨(chunkAddr l x y).tmod 240, (chunkAddr l x y).tdiv 240⟩ := by
  simp [Land.chunk, h, chunkAddr, LandChunk.new]

theorem chunk_eq_none {l : Land} {x y : Int} (h : l.in_bounds x y = false) :
    l.chunk x y = none := by
  simp [Land.chunk, h]

theorem chunkAddr_facts {l : Land} {x y : Int} (h : l.in_bounds x y = true) :
    16 ≤ chunkAddr l x y ∧ 8 ∣ chunkAddr l x y := by
  obtain ⟨hx0, hxw, hy0, hyh⟩ := in_bounds_iff.mp h
  have hdx : x.tdiv 8 = x / 8 := Int.tdiv_eq_ediv hx0 (by norm_num)
  have hdy : y.tdiv 8 = y / 8 := Int.tdiv_eq_ediv hy0 (by norm_num)
  have hcx0 : 0 ≤ x / 8 := Int.ediv_nonneg hx0 (by norm_num)
  have hcy0 : 0 ≤ y / 8 := Int.ediv_nonneg hy0 (by norm_num)
  have hw0 : 0 ≤ l.width := by omega
  have hmul : 0 ≤ (y / 8) * l.width := mul_nonneg hcy0 hw0
  unfold chunkAddr LAND_CHUNK_ADDR_RESERVE
  rw [hdx, hdy]
  refine ⟨by omega, ⟨2 + ((y / 8) * l.width + x / 8), by ring⟩⟩

theorem idx_inj {w cx1 cy1 cx2 cy2 : Int} (hcx1 : 0 ≤ cx1) (h1 : cx1 < w)
    (hcx2 : 0 ≤ cx2) (h2 : cx2 < w)
    (he : cy1 * w + cx1 = cy2 * w + cx2) : cx1 = cx2 ∧ cy1 = cy2 := by
  have hd : w ∣ (cx1 - cx2) := ⟨cy2 - cy1, by linear_combination he⟩
  have h0 : cx1 - cx2 = 0 := Int.eq_zero_of_abs_lt_dvd hd (abs_lt.mpr ⟨by omega, by omega⟩)
  have hcx : cx1 = cx2 := by omega
  refine ⟨hcx, ?_⟩
  have hmul : cy1 * w = cy2 * w := by omega
  exact mul_right_cancel₀ (by omega) hmul

theorem cellOf_facts {l : Land} {x y : Int} (h : l.in_bounds x y = true) :
    0 ≤ (cellOf l x y).1 ∧ (cellOf l x y).1 < 240 ∧ 0 ≤ (cellOf l x y).2 ∧
      240 * (cellOf l x y).2 + (cellOf l x y).1 = chunkAddr l x y + y % 8 := by
  obtain ⟨h16, hdvd⟩ := chunkAddr_facts h
  obtain ⟨hx0, hxw, hy0, hyh⟩ := in_bounds_iff.mp h
  have hmy : y.tmod 8 = y % 8 := Int.tmod_eq_emod hy0 (by norm_num)
  have h0 : 0 ≤ chunkAddr l x y := by omega
  unfold cellOf
  rw [hmy, Int.tdiv_eq_ediv h0 (by norm_num), Int.tmod_eq_emod h0 (by norm_num)]
  obtain ⟨k, hk⟩ := hdvd
  simp only []
  omega

theorem cellOf_inj {l : Land} {x1 y1 x2 y2 : Int}
    (h1 : l.in_bounds x1 y1 = true) (h2 : l.in_bounds x2 y2 = true)
    (he : cellOf l x1 y1 = cellOf l x2 y2) : x1 / 8 = x2 / 8 ∧ y1 = y2 := by
  obtain ⟨ha16, hadvd⟩ := chunkAddr_facts h1
  obtain ⟨hb16, hbdvd⟩ := chunkAddr_facts h2
  obtain ⟨hx10, hx1w, hy10, hy1h⟩ := in_bounds_iff.mp h1
  obtain ⟨hx20, hx2w, hy20, hy2h⟩ := in_bounds_iff.mp h2
  have A := cellOf_facts h1
  have B := cellOf_facts h2
  rw [he] at A
  obtain ⟨k1, hk1⟩ := hadvd
  obtain ⟨k2, hk2⟩ := hbdvd
  have haddr : chunkAddr l x1 y1 = chunkAddr l x2 y2 ∧ y1 % 8 = y2 % 8 := by omega
  have hdx1 : x1.tdiv 8 = x1 / 8 := Int.tdiv_eq_ediv hx10 (by norm_num)
  have hdy1 : y1.tdiv 8 = y1 / 8 := Int.tdiv_eq_ediv hy10 (by norm_num)
  have hdx2 : x2.tdiv 8 = x2 / 8 := Int.tdiv_eq_ediv hx20 (by norm_num)
  have hdy2 : y2.tdiv 8 = y2 / 8 := Int.tdiv_eq_ediv hy20 (by norm_num)
  have hidx : (y1 / 8) * l.width + x1 / 8 = (y2 / 8) * l.width + x2 / 8 := by
    have := haddr.1
    unfold chunkAddr at this
    rw [hdx1, hdy1, hdx2, hdy2] at this
    omega
  have hcx1 : x1 / 8 < l.width := by omega
  have hcx2 : x2 / 8 < l.width := by omega
  have hcx10 : 0 ≤ x1 / 8 := Int.ediv_nonneg hx10 (by norm_num)
  have hcx20 : 0 ≤ x2 / 8 := Int.ediv_nonneg hx20 (by norm_num)
  obtain ⟨hcx, hcy⟩ := idx_inj hcx10 hcx1 hcx20 hcx2 hidx
  exact ⟨hcx, by omega⟩

/-! ### Pixel get and set in cell form -/

theorem mset_apply_pair_self (m : MapMem) (p : Int × Int) (v : Int) :
    mset m p.1 p.2 v p = (v % 256).toNat := by
  simp [mset]

theorem mset_apply_pair_ne (m : MapMem) (p q : Int × Int) (v : Int) (h : q ≠ p) :
    mset m p.1 p.2 v q = m q := by
  simp [mset, h]

theorem mset_overwrite (m : MapMem) (a b : Int) (v w : Int) :
    mset (mset m a b v) a b w = mset m a b w := by
  funext p
  by_cases hp : p = (a, b) <;> simp [mset, hp]

theorem mset_congr_val (m : MapMem) (a b : Int) {v w : Int}
    (h : (v % 256).toNat = (w % 256).toNat) : mset m a b v = mset m a b w := by
  funext p
  by_cases hp : p = (a, b) <;> simp [mset, hp, h]

theorem nat_beq_eq_decide (a b : Nat) : (a == b) = decide (a = b) := by
  by_cases h : a = b <;> simp [h]

theorem get_eq_testBit {l : Land} {x y : Int} (m : MapMem) (h : l.in_bounds x y = true) :
    l.get m x y = (m (cellOf l x y)).testBit (x % 8).toNat := by
  obtain ⟨hx0, _, hy0, _⟩ := in_bounds_iff.mp h
  have hmx : x.tmod 8 = x % 8 := Int.tmod_eq_emod hx0 (by norm_num)
  simp [Land.get, chunk_eq_some h, LandChunk.get, mget, cellOf, getBit_eq_testBit, hmx,
    Nat.shiftRight_eq_div_pow, Nat.testBit_to_div_mod, nat_beq_eq_decide]

theorem set_eq_mset {l : Land} {x y : Int} (m : MapMem) (s : Bool)
    (h : l.in_bounds x y = true) :
    l.set m x y s =
      mset m (cellOf l x y).1 (cellOf l x y).2
        ((setVal (m (cellOf l x y)) (x % 8).toNat s : Nat) : Int) := by
  obtain ⟨hx0, _, hy0, _⟩ := in_bounds_iff.mp h
  have hmx : x.tmod 8 = x % 8 := Int.tmod_eq_emod hx0 (by norm_num)
  simp [Land.set, chunk_eq_some h, LandChunk.set, mget, cellOf, setVal, hmx]

theorem set_oob {l : Land} {x y : Int} (m : MapMem) (s : Bool)
    (h : l.in_bounds x y = false) : l.set m x y s = m := by
  simp [Land.set, chunk_eq_none h]

theorem get_oob {l : Land} {x y : Int} (m : MapMem) (h : l.in_bounds x y = false) :
    l.get m x y = l.covered := by
  simp [Land.get, chunk_eq_none h]

theorem testBit_mod256_ge (v i : Nat) (h : 8 ≤ i) : (v % 256).testBit i = false := by
  apply Nat.testBit_lt_two_pow
  calc v % 256 < 256 := Nat.mod_lt _ (by norm_num)
    _ = 2 ^ 8 := rfl
    _ ≤ 2 ^ i := Nat.pow_le_pow_right (by norm_num) h

theorem setVal_mod_idem (old bit : Nat) (s : Bool) (hbit : bit < 8) :
    setVal (setVal old bit s % 256) bit s % 256 = setVal old bit s % 256 := by
  apply Nat.eq_of_testBit_eq
  intro i
  by_cases hi : i < 8
  · rw [testBit_mod256 _ _ hi, testBit_mod256 _ _ hi]
    by_cases hib : i = bit
    · subst hib
      rw [setVal_testBit_self _ _ _ (by omega), setVal_testBit_self _ _ _ (by omega)]
    · rw [setVal_testBit_other _ _ _ _ hib (by omega), testBit_mod256 _ _ hi]
  · rw [testBit_mod256_ge _ _ (by omega), testBit_mod256_ge _ _ (by omega)]

theorem get_set_self {l : Land} {x y : Int} (m : MapMem) (s : Bool)
    (h : l.in_bounds x y = true) : l.get (l.set m x y s) x y = s := by
  obtain ⟨hx0, _, _, _⟩ := in_bounds_iff.mp h
  rw [set_eq_mset m s h, get_eq_testBit _ h, mset_apply_pair_self, natCast_mod256_toNat,
    testBit_mod256 _ _ (by omega), setVal_testBit_self _ _ _ (by omega)]

theorem get_set_ne {l : Land} {x1 y1 x2 y2 : Int} (m : MapMem) (s : Bool)
    (hne : ¬(x1 = x2 ∧ y1 = y2)) :
    l.get (l.set m x1 y1 s) x2 y2 = l.get m x2 y2 := by
  cases hb1 : l.in_bounds x1 y1
  · rw [set_oob m s hb1]
  · cases hb2 : l.in_bounds x2 y2
    · rw [get_oob _ hb2, get_oob _ hb2]
    · obtain ⟨hx10, _, hy10, _⟩ := in_bounds_iff.mp hb1
      obtain ⟨hx20, _, hy20, _⟩ := in_bounds_iff.mp hb2
      rw [set_eq_mset m s hb1, get_eq_testBit _ hb2, get_eq_testBit m hb2]
      by_cases hcell : cellOf l x2 y2 = cellOf l x1 y1
      · obtain ⟨hdiv, hy⟩ := cellOf_inj hb2 hb1 hcell
        have hxne : x2 ≠ x1 := by
          intro hx
          exact hne ⟨hx.symm, hy.symm⟩
        rw [hcell, mset_apply_pair_self, natCast_mod256_toNat,
          testBit_mod256 _ _ (by omega),
          setVal_testBit_other _ _ _ _ (by omega) (by omega)]
      · rw [mset_apply_pair_ne _ _ _ _ hcell]

theorem set_set_self {l : Land} {x y : Int} (m : MapMem) (s : Bool) :
    l.set (l.set m x y s) x y s = l.set m x y s := by
  cases hb : l.in_bounds x y
  · rw [set_oob m s hb, set_oob m s hb]
  · obtain ⟨hx0, _, _, _⟩ := in_bounds_iff.mp hb
    rw [set_eq_mset m s hb]
    rw [set_eq_mset _ s hb]
    rw [mset_apply_pair_self, mset_overwrite]
    apply mset_congr_val
    rw [natCast_mod256_toNat, natCast_mod256_toNat]
    exact setVal_mod_idem _ _ _ (by omega)

/-! ### Folds of sets over coordinate lists -/

/-- Fold of `Land.set` over a list of coordinates. -/
def setFold (l : Land) (m : MapMem) (ps : List (Int × Int)) (s : Bool) : MapMem :=
  ps.foldl (fun mm p => l.set mm p.1 p.2 s) m

theorem setFold_nil (l : Land) (m : MapMem) (s : Bool) : setFold l m [] s = m := rfl

theorem setFold_cons (l : Land) (m : MapMem) (a : Int × Int) (t : List (Int × Int))
    (s : Bool) : setFold l m (a :: t) s = setFold l (l.set m a.1 a.2 s) t s := rfl

theorem setFold_get_not_mem {l : Land} {s : Bool} {x y : Int}
    (ps : List (Int × Int)) (m : MapMem)
    (h : ∀ p ∈ ps, ¬(p.1 = x ∧ p.2 = y)) :
    l.get (setFold l m ps s) x y = l.get m x y := by
  induction ps generalizing m with
  | nil => rfl
  | cons a t ih =>
    rw [setFold_cons, ih _ (fun p hp => h p (List.mem_cons_of_mem a hp))]
    exact get_set_ne m s (h a (List.mem_cons_self a t))

theorem setFold_get_mem {l : Land} {s : Bool} {x y : Int}
    (ps : List (Int × Int)) (m : MapMem)
    (hin : l.in_bounds x y = true)
    (h : (x, y) ∈ ps ∨ l.get m x y = s) :
    l.get (setFold l m ps s) x y = s := by
  induction ps generalizing m with
  | nil =>
    rcases h with h | h
    · simp at h
    · exact h
  | cons a t ih =>
    rw [setFold_cons]
    apply ih
    rcases h with h | h
    · rcases List.mem_cons.mp h with h | h
      · right
        subst h
        exact get_set_self m s hin
      · left
        exact h
    · right
      by_cases hsame : a.1 = x ∧ a.2 = y
      · obtain ⟨h1, h2⟩ := hsame
        rw [h1, h2]
        exact get_set_self m s hin
      · rw [get_set_ne m s hsame]
        exact h

theorem foldl_func_congr {α γ : Type} {f g : γ → α → γ} (L : List α) (init : γ)
    (h : ∀ acc a, f acc a = g acc a) : L.foldl f init = L.foldl g init := by
  induction L generalizing init with
  | nil => rfl
  | cons a t ih => rw [List.foldl_cons, List.foldl_cons, h, ih]

theorem foldl_flatMap {α β γ : Type} (L : List α) (g : α → List β) (f : γ → β → γ)
    (init : γ) :
    (L.flatMap g).foldl f init = L.foldl (fun acc a => (g a).foldl f acc) init := by
  induction L generalizing init with
  | nil => rfl
  | cons a t ih => rw [List.flatMap_cons, List.foldl_append, List.foldl_cons, ih]

theorem foldl_filter {α γ : Type} (c : α → Bool) (f : γ → α → γ) (L : List α)
    (init : γ) :
    (L.filter c).foldl f init =
      L.foldl (fun acc a => if c a then f acc a else acc) init := by
  induction L generalizing init with
  | nil => rfl
  | cons a t ih =>
    rw [List.filter_cons]
    by_cases h : c a <;> simp [h, ih]

/-! ### The circle brush as a coordinate list -/

/-- Targets touched by `Land.set_circle`, as an explicit list. -/
def circleList (x y r : Int) : List (Int × Int) :=
  (((rangeList (-r) r).flatMap (fun i => (rangeList (-r) r).map (fun j => (i, j)))).filter
    (fun p => decide (p.1 * p.1 + p.2 * p.2 ≤ r * r))).map
    (fun p => (x + p.1, y + p.2))

theorem set_circle_eq_setFold (l : Land) (m : MapMem) (x y r : Int) (s : Bool) :
    l.set_circle m x y r s = setFold l m (circleList x y r) s := by
  unfold Land.set_circle circleList setFold
  rw [List.foldl_map, foldl_filter, foldl_flatMap]
  apply foldl_func_congr
  intro acc i
  rw [List.foldl_map]
  apply foldl_func_congr
  intro mm j
  by_cases h : i * i + j * j ≤ r * r <;> simp [h]

theorem circleList_mem_of {x y r i j : Int} (h1 : -r ≤ i) (h2 : i < r) (h3 : -r ≤ j)
    (h4 : j < r) (h5 : i * i + j * j ≤ r * r) :
    (x + i, y + j) ∈ circleList x y r := by
  unfold circleList
  refine List.mem_map.mpr ⟨(i, j), List.mem_filter.mpr ⟨?_, ?_⟩, rfl⟩
  · exact List.mem_flatMap.mpr ⟨i, mem_rangeList.mpr ⟨h1, h2⟩,
      List.mem_map.mpr ⟨j, mem_rangeList.mpr ⟨h3, h4⟩, rfl⟩⟩
  · exact decide_eq_true h5

theorem circleList_mem_inv {x y r : Int} {p : Int × Int} (h : p ∈ circleList x y r) :
    ∃ i j, -r ≤ i ∧ i < r ∧ -r ≤ j ∧ j < r ∧ i * i + j * j ≤ r * r ∧
      p = (x + i, y + j) := by
  unfold circleList at h
  obtain ⟨q, hq, he⟩ := List.mem_map.mp h
  obtain ⟨hq1, hq2⟩ := List.mem_filter.mp hq
  obtain ⟨i, hi, hq3⟩ := List.mem_flatMap.mp hq1
  obtain ⟨j, hj, he2⟩ := List.mem_map.mp hq3
  subst he2
  exact ⟨i, j, (mem_rangeList.mp hi).1, (mem_rangeList.mp hi).2,
    (mem_rangeList.mp hj).1, (mem_rangeList.mp hj).2, of_decide_eq_true hq2, he.symm⟩

/-! ### Store cells, set_mask 0 and clear -/

/-- Predicate for the store cells that belong to the chunk body of a land: the
translated `(column, row)` pairs whose linear address lies in
`[16, 16 + 8*width*height)`. -/
def isStoreCell (l : Land) (p : Int × Int) : Prop :=
  0 ≤ p.1 ∧ p.1 < 240 ∧ 0 ≤ p.2 ∧ 16 ≤ 240 * p.2 + p.1 ∧
    240 * p.2 + p.1 < 16 + 8 * (l.width * l.height)

theorem cellOf_isStoreCell {l : Land} {x y : Int} (h : l.in_bounds x y = true) :
    isStoreCell l (cellOf l x y) := by
  obtain ⟨h1, h2, h3, h4⟩ := cellOf_facts h
  obtain ⟨h16, hdvd⟩ := chunkAddr_facts h
  obtain ⟨hx0, hxw, hy0, hyh⟩ := in_bounds_iff.mp h
  have hdx : x.tdiv 8 = x / 8 := Int.tdiv_eq_ediv hx0 (by norm_num)
  have hdy : y.tdiv 8 = y / 8 := Int.tdiv_eq_ediv hy0 (by norm_num)
  have hcx : x / 8 < l.width := by omega
  have hcy : y / 8 < l.height := by omega
  have hcx0 : 0 ≤ x / 8 := Int.ediv_nonneg hx0 (by norm_num)
  have hcy0 : 0 ≤ y / 8 := Int.ediv_nonneg hy0 (by norm_num)
  have hidx : (y / 8) * l.width + x / 8 < l.width * l.height := by
    have e1 : (y / 8) * l.width ≤ (l.height - 1) * l.width :=
      mul_le_mul_of_nonneg_right (by omega) (by omega)
    have e2 : (l.height - 1) * l.width = l.height * l.width - l.width := by ring
    have e3 : l.height * l.width = l.width * l.height := mul_comm _ _
    omega
  have haddr : chunkAddr l x y = 16 + ((y / 8) * l.width + x / 8) * 8 := by
    unfold chunkAddr LAND_CHUNK_ADDR_RESERVE
    rw [hdx, hdy]
  unfold isStoreCell
  omega

theorem set_mask_zero_eq (c : LandChunk) (mm : MapMem) :
    c.set_mask mm 0 =
      mset (mset (mset (mset (mset (mset (mset (mset mm
        (c.map_x + 0) c.map_y 0) (c.map_x + 1) c.map_y 0) (c.map_x + 2) c.map_y 0)
        (c.map_x + 3) c.map_y 0) (c.map_x + 4) c.map_y 0) (c.map_x + 5) c.map_y 0)
        (c.map_x + 6) c.map_y 0) (c.map_x + 7) c.map_y 0 := by
  simp [LandChunk.set_mask, show List.range 8 = [0, 1, 2, 3, 4, 5, 6, 7] from rfl]

theorem set_mask_zero_apply_own (c : LandChunk) (mm : MapMem) {p : Int × Int} {i : Int}
    (h0 : 0 ≤ i) (h8 : i < 8) (hp : p = (c.map_x + i, c.map_y)) :
    (c.set_mask mm 0) p = 0 := by
  rw [set_mask_zero_eq]
  subst hp
  interval_cases i <;> simp [mset, Prod.ext_iff]

theorem set_mask_zero_apply_other (c : LandChunk) (mm : MapMem) {p : Int × Int}
    (hp : ∀ i : Int, 0 ≤ i → i < 8 → p ≠ (c.map_x + i, c.map_y)) :
    (c.set_mask mm 0) p = mm p := by
  rw [set_mask_zero_eq,
    mset_apply_ne _ _ _ _ (hp 7 (by norm_num) (by norm_num)),
    mset_apply_ne _ _ _ _ (hp 6 (by norm_num) (by norm_num)),
    mset_apply_ne _ _ _ _ (hp 5 (by norm_num) (by norm_num)),
    mset_apply_ne _ _ _ _ (hp 4 (by norm_num) (by norm_num)),
    mset_apply_ne _ _ _ _ (hp 3 (by norm_num) (by norm_num)),
    mset_apply_ne _ _ _ _ (hp 2 (by norm_num) (by norm_num)),
    mset_apply_ne _ _ _ _ (hp 1 (by norm_num) (by norm_num)),
    mset_apply_ne _ _ _ _ (hp 0 (by norm_num) (by norm_num))]

theorem set_mask_zero_preserve (c : LandChunk) (mm : MapMem) {p : Int × Int}
    (h : mm p = 0) : (c.set_mask mm 0) p = 0 := by
  by_cases hc : ∃ i : Int, 0 ≤ i ∧ i < 8 ∧ p = (c.map_x + i, c.map_y)
  · obtain ⟨i, h1, h2, h3⟩ := hc
    exact set_mask_zero_apply_own c mm h1 h2 h3
  · push_neg at hc
    rw [set_mask_zero_apply_other c mm hc, h]

theorem clear_step_preserve (l : Land) (mm : MapMem) (q : Int × Int) {p : Int × Int}
    (h : mm p = 0) :
    (match l.chunk q.1 q.2 with
      | some c => c.set_mask mm 0
      | none => mm) p = 0 := by
  cases hc : l.chunk q.1 q.2 with
  | none => exact h
  | some c => exact set_mask_zero_preserve c mm h

theorem clear_fold_zero (l : Land) (L : List (Int × Int)) (mm : MapMem) (p : Int × Int)
    (h : (∃ q ∈ L, ∃ c, l.chunk q.1 q.2 = some c ∧
            ∃ i : Int, 0 ≤ i ∧ i < 8 ∧ p = (c.map_x + i, c.map_y)) ∨ mm p = 0) :
    (L.foldl (fun mm p =>
      match l.chunk p.1 p.2 with
      | some c => c.set_mask mm 0
      | none => mm) mm) p = 0 := by
  induction L generalizing mm with
  | nil =>
    rcases h with ⟨q, hq, _⟩ | h
    · simp at hq
    · exact h
  | cons a t ih =>
    rw [List.foldl_cons]
    apply ih
    rcases h with ⟨q, hq, c, hc, i, h1, h2, h3⟩ | h
    · rcases List.mem_cons.mp hq with rfl | hq2
      · right
        rw [hc]
        exact set_mask_zero_apply_own c mm h1 h2 h3
      · left
        exact ⟨q, hq2, c, hc, i, h1, h2, h3⟩
    · right
      exact clear_step_preserve l mm a h

theorem storeCell_owner {l : Land} {p : Int × Int} (hw : 1 ≤ l.width)
    (hh : 1 ≤ l.height) (hp : isStoreCell l p) :
    ∃ q ∈ l.chunk_coordinates, ∃ c, l.chunk q.1 q.2 = some c ∧
      ∃ i : Int, 0 ≤ i ∧ i < 8 ∧ p = (c.map_x + i, c.map_y) := by
  have hw0 : (0 : Int) < l.width := by omega
  obtain ⟨hp1, hp2, hp3, hp4, hp5⟩ := hp
  have hL0 : 0 ≤ 240 * p.2 + p.1 - 16 := by omega
  have hidx0 : 0 ≤ (240 * p.2 + p.1 - 16) / 8 := Int.ediv_nonneg hL0 (by norm_num)
  have hr0 : 0 ≤ (240 * p.2 + p.1 - 16) % 8 :=
    Int.emod_nonneg _ (by norm_num)
  have hr8 : (240 * p.2 + p.1 - 16) % 8 < 8 := Int.emod_lt_of_pos _ (by norm_num)
  have hLdecomp : 8 * ((240 * p.2 + p.1 - 16) / 8) + (240 * p.2 + p.1 - 16) % 8 =
      240 * p.2 + p.1 - 16 := Int.ediv_add_emod _ 8
  have hidxlt : (240 * p.2 + p.1 - 16) / 8 < l.width * l.height := by omega
  have hcx0 : 0 ≤ ((240 * p.2 + p.1 - 16) / 8) % l.width :=
    Int.emod_nonneg _ (ne_of_gt hw0)
  have hcxw : ((240 * p.2 + p.1 - 16) / 8) % l.width < l.width :=
    Int.emod_lt_of_pos _ hw0
  have hcy0 : 0 ≤ ((240 * p.2 + p.1 - 16) / 8) / l.width :=
    Int.ediv_nonneg hidx0 (by omega)
  have hdecomp2 : l.width * (((240 * p.2 + p.1 - 16) / 8) / l.width) +
      ((240 * p.2 + p.1 - 16) / 8) % l.width = (240 * p.2 + p.1 - 16) / 8 :=
    Int.ediv_add_emod _ l.width
  have hcyh : ((240 * p.2 + p.1 - 16) / 8) / l.width < l.height := by
    by_contra hcon
    push_neg at hcon
    have hmul : l.width * l.height ≤
        l.width * (((240 * p.2 + p.1 - 16) / 8) / l.width) :=
      mul_le_mul_of_nonneg_left hcon (by omega)
    omega
  have hinb : l.in_bounds ((((240 * p.2 + p.1 - 16) / 8) % l.width) * 8)
      ((((240 * p.2 + p.1 - 16) / 8) / l.width) * 8) = true :=
    in_bounds_iff.mpr ⟨by omega, by omega, by omega, by omega⟩
  have hchunk := chunk_eq_some hinb
  have hdtx : ((((240 * p.2 + p.1 - 16) / 8) % l.width) * 8).tdiv 8 =
      ((240 * p.2 + p.1 - 16) / 8) % l.width := by
    rw [Int.tdiv_eq_ediv (by omega) (by norm_num)]
    exact Int.mul_ediv_cancel _ (by norm_num)
  have hdty : ((((240 * p.2 + p.1 - 16) / 8) / l.width) * 8).tdiv 8 =
      ((240 * p.2 + p.1 - 16) / 8) / l.width := by
    rw [Int.tdiv_eq_ediv (by omega) (by norm_num)]
    exact Int.mul_ediv_cancel _ (by norm_num)
  have haddr : chunkAddr l ((((240 * p.2 + p.1 - 16) / 8) % l.width) * 8)
      ((((240 * p.2 + p.1 - 16) / 8) / l.width) * 8) =
      16 + 8 * ((240 * p.2 + p.1 - 16) / 8) := by
    unfold chunkAddr LAND_CHUNK_ADDR_RESERVE
    rw [hdtx, hdty]
    have e1 : (((240 * p.2 + p.1 - 16) / 8) / l.width) * l.width =
        l.width * (((240 * p.2 + p.1 - 16) / 8) / l.width) := mul_comm _ _
    omega
  have h0 : 0 ≤ chunkAddr l ((((240 * p.2 + p.1 - 16) / 8) % l.width) * 8)
      ((((240 * p.2 + p.1 - 16) / 8) / l.width) * 8) := by omega
  refine ⟨(((((240 * p.2 + p.1 - 16) / 8) % l.width) * 8),
      ((((240 * p.2 + p.1 - 16) / 8) / l.width) * 8)), ?_, _, hchunk,
      (240 * p.2 + p.1 - 16) % 8, hr0, hr8, ?_⟩
  · unfold Land.chunk_coordinates
    refine List.mem_flatMap.mpr ⟨(((240 * p.2 + p.1 - 16) / 8) % l.width) * 8,
      List.mem_map.mpr ⟨((240 * p.2 + p.1 - 16) / 8) % l.width,
        mem_rangeList.mpr ⟨hcx0, hcxw⟩, rfl⟩, ?_⟩
    exact List.mem_map.mpr ⟨(((240 * p.2 + p.1 - 16) / 8) / l.width) * 8,
      List.mem_map.mpr ⟨((240 * p.2 + p.1 - 16) / 8) / l.width,
        mem_rangeList.mpr ⟨hcy0, hcyh⟩, rfl⟩, rfl⟩
  · show p = (_ + (240 * p.2 + p.1 - 16) % 8, _)
    rw [Int.tmod_eq_emod h0 (by norm_num), Int.tdiv_eq_ediv h0 (by norm_num), haddr]
    have hfin : p.1 = (16 + 8 * ((240 * p.2 + p.1 - 16) / 8)) % 240 +
        (240 * p.2 + p.1 - 16) % 8 ∧
        p.2 = (16 + 8 * ((240 * p.2 + p.1 - 16) / 8)) / 240 := by omega
    exact Prod.ext hfin.1 hfin.2

theorem clear_apply_storeCell {l : Land} (m : MapMem) {p : Int × Int}
    (hw : 1 ≤ l.width) (hh : 1 ≤ l.height) (hp : isStoreCell l p) :
    l.clear m p = 0 := by
  unfold Land.clear
  exact clear_fold_zero l _ m p (Or.inl (storeCell_owner hw hh hp))

theorem get_clear_false {l : Land} (m : MapMem) {x y : Int}
    (h : l.in_bounds x y = true) : l.get (l.clear m) x y = false := by
  obtain ⟨hx0, hxw, hy0, hyh⟩ := in_bounds_iff.mp h
  rw [get_eq_testBit _ h,
    clear_apply_storeCell m (by omega) (by omega) (cellOf_isStoreCell h)]
  simp

/-! ### Generate as a fold of column fills -/

/-- Column-fill targets of `Land.generate`, as an explicit list. -/
def genList (np : Nat → Int → Int → Int → Int) (l : Land) : List (Int × Int) :=
  (rangeList 0 (l.width * 8)).flatMap
    (fun x =>
      (rangeList (min (np l.seed (l.width * 8) l.water_height x) (l.height * 8 - 1))
        (l.height * 8)).map (fun y => (x, y)))

theorem generate_eq_setFold (np : Nat → Int → Int → Int → Int) (l : Land) (m : MapMem) :
    l.generate np m = setFold l (l.clear m) (genList np l) true := by
  unfold Land.generate genList setFold
  rw [foldl_flatMap]
  apply foldl_func_congr
  intro acc x
  rw [List.foldl_map]

theorem genList_mem_inv {np : Nat → Int → Int → Int → Int} {l : Land} {p : Int × Int}
    (h : p ∈ genList np l) :
    0 ≤ p.1 ∧ p.1 < l.width * 8 ∧
      min (np l.seed (l.width * 8) l.water_height p.1) (l.height * 8 - 1) ≤ p.2 ∧
      p.2 < l.height * 8 := by
  unfold genList at h
  obtain ⟨x, hx, h2⟩ := List.mem_flatMap.mp h
  obtain ⟨y, hy, he⟩ := List.mem_map.mp h2
  subst he
  obtain ⟨a1, a2⟩ := mem_rangeList.mp hx
  obtain ⟨b1, b2⟩ := mem_rangeList.mp hy
  exact ⟨a1, a2, b1, b2⟩

theorem genList_mem_of {np : Nat → Int → Int → Int → Int} {l : Land} {x y : Int}
    (h1 : 0 ≤ x) (h2 : x < l.width * 8)
    (h3 : min (np l.seed (l.width * 8) l.water_height x) (l.height * 8 - 1) ≤ y)
    (h4 : y < l.height * 8) : (x, y) ∈ genList np l := by
  unfold genList
  exact List.mem_flatMap.mpr ⟨x, mem_rangeList.mpr ⟨h1, h2⟩,
    List.mem_map.mpr ⟨y, mem_rangeList.mpr ⟨h3, h4⟩, rfl⟩⟩

/-- Full characterization of a pixel after `generate`: an in-bounds pixel is
filled exactly when its row is at or below the clamped column start
`min(h as i32, height*8 - 1)`. -/
theorem generate_get_char (np : Nat → Int → Int → Int → Int) (l : Land) (m : MapMem)
    {x y : Int} (h : l.in_bounds x y = true) :
    l.get (l.generate np m) x y =
      decide (min (np l.seed (l.width * 8) l.water_height x) (l.height * 8 - 1) ≤ y) := by
  obtain ⟨hx0, hxw, hy0, hyh⟩ := in_bounds_iff.mp h
  rw [generate_eq_setFold]
  by_cases hc : min (np l.seed (l.width * 8) l.water_height x) (l.height * 8 - 1) ≤ y
  · rw [setFold_get_mem _ _ h (Or.inl (genList_mem_of hx0 hxw hc hyh))]
    simp [hc]
  · rw [setFold_get_not_mem]
    · rw [get_clear_false m h]
      simp [hc]
    · intro p hp hcon
      obtain ⟨c1, c2, c3, c4⟩ := genList_mem_inv hp
      obtain ⟨e1, e2⟩ := hcon
      rw [e1, e2] at c3
      exact hc c3

/-! ### Agreement on store cells, for determinism -/

/-- Agreement of two memories on all chunk-body store cells of a land. -/
def AgreeOn (l : Land) (m1 m2 : MapMem) : Prop :=
  ∀ p, isStoreCell l p → m1 p = m2 p

theorem set_agree {l : Land} {m1 m2 : MapMem} (x y : Int) (s : Bool)
    (h : AgreeOn l m1 m2) : AgreeOn l (l.set m1 x y s) (l.set m2 x y s) := by
  intro p hp
  cases hb : l.in_bounds x y
  · rw [set_oob m1 s hb, set_oob m2 s hb]
    exact h p hp
  · rw [set_eq_mset m1 s hb, set_eq_mset m2 s hb]
    by_cases hcell : p = cellOf l x y
    · subst hcell
      rw [mset_apply_pair_self, mset_apply_pair_self, h _ (cellOf_isStoreCell hb)]
    · rw [mset_apply_pair_ne _ _ _ _ hcell, mset_apply_pair_ne _ _ _ _ hcell]
      exact h p hp

theorem setFold_agree {l : Land} {m1 m2 : MapMem} (ps : List (Int × Int)) (s : Bool)
    (h : AgreeOn l m1 m2) : AgreeOn l (setFold l m1 ps s) (setFold l m2 ps s) := by
  induction ps generalizing m1 m2 with
  | nil => exact h
  | cons a t ih =>
    rw [setFold_cons, setFold_cons]
    exact ih (set_agree a.1 a.2 s h)

theorem clear_agree {l : Land} (m1 m2 : MapMem) (hw : 1 ≤ l.width)
    (hh : 1 ≤ l.height) : AgreeOn l (l.clear m1) (l.clear m2) := by
  intro p hp
  rw [clear_apply_storeCell m1 hw hh hp, clear_apply_storeCell m2 hw hh hp]

theorem generate_agree {l : Land} (np : Nat → Int → Int → Int → Int)
    (m1 m2 : MapMem) (hw : 1 ≤ l.width) (hh : 1 ≤ l.height) :
    AgreeOn l (l.generate np m1) (l.generate np m2) := by
  rw [generate_eq_setFold, generate_eq_setFold]
  exact setFold_agree _ true (clear_agree m1 m2 hw hh)

theorem addrCell_facts {addr : Int} (h16 : 16 ≤ addr) (hdvd : 8 ∣ addr) {i : Int}
    (h0 : 0 ≤ i) (h8 : i < 8) :
    0 ≤ addr.tmod 240 + i ∧ addr.tmod 240 + i < 240 ∧ 0 ≤ addr.tdiv 240 ∧
      240 * (addr.tdiv 240) + (addr.tmod 240 + i) = addr + i := by
  have h0a : 0 ≤ addr := by omega
  rw [Int.tdiv_eq_ediv h0a (by norm_num), Int.tmod_eq_emod h0a (by norm_num)]
  obtain ⟨k, hk⟩ := hdvd
  omega

theorem chunkCell_isStoreCell {l : Land} {x y : Int} (h : l.in_bounds x y = true)
    {c : LandChunk} (hc : l.chunk x y = some c) (i : Int) (h0 : 0 ≤ i) (h8 : i < 8) :
    isStoreCell l (c.map_x + i, c.map_y) := by
  rw [chunk_eq_some h] at hc
  injection hc with hc
  subst hc
  dsimp only
  obtain ⟨h16, hdvd⟩ := chunkAddr_facts h
  obtain ⟨f1, f2, f3, f4⟩ := addrCell_facts h16 hdvd h0 h8
  obtain ⟨hx0, hxw, hy0, hyh⟩ := in_bounds_iff.mp h
  have hdx : x.tdiv 8 = x / 8 := Int.tdiv_eq_ediv hx0 (by norm_num)
  have hdy : y.tdiv 8 = y / 8 := Int.tdiv_eq_ediv hy0 (by norm_num)
  have hcx : x / 8 < l.width := by omega
  have hcy : y / 8 < l.height := by omega
  have hcx0 : 0 ≤ x / 8 := Int.ediv_nonneg hx0 (by norm_num)
  have hcy0 : 0 ≤ y / 8 := Int.ediv_nonneg hy0 (by norm_num)
  have hidx : (y / 8) * l.width + x / 8 < l.width * l.height := by
    have e1 : (y / 8) * l.width ≤ (l.height - 1) * l.width :=
      mul_le_mul_of_nonneg_right (by omega) (by omega)
    have e2 : (l.height - 1) * l.width = l.height * l.width - l.width := by ring
    have e3 : l.height * l.width = l.width * l.height := mul_comm _ _
    omega
  have hidx0 : 0 ≤ (y / 8) * l.width + x / 8 := by
    have := mul_nonneg hcy0 (by omega : (0:Int) ≤ l.width)
    omega
  have haddr : chunkAddr l x y = 16 + ((y / 8) * l.width + x / 8) * 8 := by
    unfold chunkAddr LAND_CHUNK_ADDR_RESERVE
    rw [hdx, hdy]
  unfold isStoreCell
  omega

theorem get_mask_congr {c : LandChunk} {m1 m2 : MapMem}
    (h : ∀ i : Int, 0 ≤ i → i < 8 →
      m1 (c.map_x + i, c.map_y) = m2 (c.map_x + i, c.map_y)) :
    c.get_mask m1 = c.get_mask m2 := by
  unfold LandChunk.get_mask
  rw [show List.range 8 = [0, 1, 2, 3, 4, 5, 6, 7] from rfl]
  simp only [List.foldl_cons, List.foldl_nil, mget, Nat.cast_zero, Nat.cast_one,
    Nat.cast_ofNat]
  rw [h 0 (by norm_num) (by norm_num), h 1 (by norm_num) (by norm_num),
    h 2 (by norm_num) (by norm_num), h 3 (by norm_num) (by norm_num),
    h 4 (by norm_num) (by norm_num), h 5 (by norm_num) (by norm_num),
    h 6 (by norm_num) (by norm_num), h 7 (by norm_num) (by norm_num)]

/-! ### Congruence of the operations in the relevant land fields -/

theorem in_bounds_congr {l1 l2 : Land} (hW : l1.width = l2.width)
    (hH : l1.height = l2.height) (x y : Int) :
    l1.in_bounds x y = l2.in_bounds x y := by
  unfold Land.in_bounds
  rw [hW, hH]

theorem chunk_congr {l1 l2 : Land} (hW : l1.width = l2.width)
    (hH : l1.height = l2.height) (x y : Int) : l1.chunk x y = l2.chunk x y := by
  unfold Land.chunk
  rw [in_bounds_congr hW hH, hW]

theorem set_congr {l1 l2 : Land} (hW : l1.width = l2.width)
    (hH : l1.height = l2.height) (m : MapMem) (x y : Int) (s : Bool) :
    l1.set m x y s = l2.set m x y s := by
  unfold Land.set
  rw [chunk_congr hW hH]

theorem chunk_coordinates_congr {l1 l2 : Land} (hW : l1.width = l2.width)
    (hH : l1.height = l2.height) :
    l1.chunk_coordinates = l2.chunk_coordinates := by
  unfold Land.chunk_coordinates
  rw [hW, hH]

theorem clear_congr {l1 l2 : Land} (hW : l1.width = l2.width)
    (hH : l1.height = l2.height) (m : MapMem) : l1.clear m = l2.clear m := by
  unfold Land.clear
  rw [chunk_coordinates_congr hW hH]
  apply foldl_func_congr
  intro mm p
  rw [chunk_congr hW hH]

theorem generate_congr {l1 l2 : Land} (hW : l1.width = l2.width)
    (hH : l1.height = l2.height) (hS : l1.seed = l2.seed)
    (hwh : l1.water_height = l2.water_height)
    (np : Nat → Int → Int → Int → Int) (m : MapMem) :
    l1.generate np m = l2.generate np m := by
  unfold Land.generate
  rw [clear_congr hW hH, hW, hH, hS, hwh]
  apply foldl_func_congr
  intro acc x
  apply foldl_func_congr
  intro mm y
  rw [set_congr hW hH]

/-! ### Header encoding and decoding -/

theorem save_cell0 (l : Land) (m : MapMem) :
    mget (l.save_in_map m) 0 0 = ((Int.land l.width 255) % 256).toNat := by
  unfold Land.save_in_map
  rw [show List.range 4 = [0, 1, 2, 3] from rfl]
  simp only [List.foldl_cons, List.foldl_nil]
  simp [mget, mset, Prod.ext_iff]

theorem save_cell1 (l : Land) (m : MapMem) :
    mget (l.save_in_map m) 1 0 = ((Int.land l.height 255) % 256).toNat := by
  unfold Land.save_in_map
  rw [show List.range 4 = [0, 1, 2, 3] from rfl]
  simp only [List.foldl_cons, List.foldl_nil]
  simp [mget, mset, Prod.ext_iff]

theorem save_cell2 (l : Land) (m : MapMem) :
    mget (l.save_in_map m) 2 0 =
      ((Int.land ((l.seed >>> 24 : Nat) : Int) 255) % 256).toNat := by
  unfold Land.save_in_map
  rw [show List.range 4 = [0, 1, 2, 3] from rfl]
  simp only [List.foldl_cons, List.foldl_nil]
  simp [mget, mset, Prod.ext_iff]

theorem save_cell3 (l : Land) (m : MapMem) :
    mget (l.save_in_map m) 3 0 =
      ((Int.land ((l.seed >>> 16 : Nat) : Int) 255) % 256).toNat := by
  unfold Land.save_in_map
  rw [show List.range 4 = [0, 1, 2, 3] from rfl]
  simp only [List.foldl_cons, List.foldl_nil]
  simp [mget, mset, Prod.ext_iff]

theorem save_cell4 (l : Land) (m : MapMem) :
    mget (l.save_in_map m) 4 0 =
      ((Int.land ((l.seed >>> 8 : Nat) : Int) 255) % 256).toNat := by
  unfold Land.save_in_map
  rw [show List.range 4 = [0, 1, 2, 3] from rfl]
  simp only [List.foldl_cons, List.foldl_nil]
  simp [mget, mset, Prod.ext_iff]

theorem save_cell5 (l : Land) (m : MapMem) :
    mget (l.save_in_map m) 5 0 =
      ((Int.land ((l.seed >>> 0 : Nat) : Int) 255) % 256).toNat := by
  unfold Land.save_in_map
  rw [show List.range 4 = [0, 1, 2, 3] from rfl]
  simp only [List.foldl_cons, List.foldl_nil]
  simp [mget, mset, Prod.ext_iff]

theorem save_cell6 (l : Land) (m : MapMem) :
    mget (l.save_in_map m) 6 0 = (l.texture.spr_id % 256).toNat := by
  unfold Land.save_in_map
  rw [show List.range 4 = [0, 1, 2, 3] from rfl]
  simp only [List.foldl_cons, List.foldl_nil]
  simp [mget, mset, Prod.ext_iff]

theorem save_cell7 (l : Land) (m : MapMem) :
    mget (l.save_in_map m) 7 0 =
      ((Int.lor (l.texture.width <<< (4 : Int)) l.texture.height) % 256).toNat := by
  unfold Land.save_in_map
  rw [show List.range 4 = [0, 1, 2, 3] from rfl]
  simp only [List.foldl_cons, List.foldl_nil]
  simp [mget, mset, Prod.ext_iff]

theorem save_cell8 (l : Land) (m : MapMem) :
    mget (l.save_in_map m) 8 0 = (((if l.covered then 1 else 0) : Int) % 256).toNat := by
  unfold Land.save_in_map
  rw [show List.range 4 = [0, 1, 2, 3] from rfl]
  simp only [List.foldl_cons, List.foldl_nil]
  simp [mget, mset, Prod.ext_iff]

theorem byte_store_id {w : Int} (h0 : 0 ≤ w) (h255 : w ≤ 255) :
    (((Int.land w 255) % 256).toNat : Int) = w := by
  obtain ⟨n, rfl⟩ := Int.eq_ofNat_of_zero_le h0
  rw [show Int.land ((n : Nat) : Int) 255 = ((n &&& 255 : Nat) : Int) from rfl]
  have hn : n &&& 255 = n % 256 := by
    rw [show (255 : Nat) = 2 ^ 8 - 1 from rfl, Nat.and_pow_two_sub_one_eq_mod]
  rw [hn]
  omega

theorem seed_byte_store (s k : Nat) :
    ((Int.land ((s >>> k : Nat) : Int) 255) % 256).toNat = s / 2 ^ k % 256 := by
  rw [show Int.land ((s >>> k : Nat) : Int) 255 = (((s >>> k) &&& 255 : Nat) : Int) from
    rfl]
  rw [show (255 : Nat) = 2 ^ 8 - 1 from rfl, Nat.and_pow_two_sub_one_eq_mod,
    Nat.shiftRight_eq_div_pow]
  have h28 : (2 : Nat) ^ 8 = 256 := by norm_num
  rw [h28]
  omega

theorem texture_size_store {tw th : Int} (h1 : 0 ≤ tw) (h2 : tw ≤ 15) (h3 : 0 ≤ th)
    (h4 : th ≤ 15) :
    ((Int.lor (tw <<< (4 : Int)) th) % 256).toNat = 16 * tw.toNat + th.toNat := by
  obtain ⟨a, rfl⟩ := Int.eq_ofNat_of_zero_le h1
  obtain ⟨b, rfl⟩ := Int.eq_ofNat_of_zero_le h3
  rw [show ((a : Nat) : Int) <<< (4 : Int) = ((Nat.shiftLeft' false a 4 : Nat) : Int) from
    rfl]
  rw [Nat.shiftLeft'_false]
  rw [show Int.lor ((a <<< 4 : Nat) : Int) ((b : Nat) : Int) =
    (((a <<< 4) ||| b : Nat) : Int) from rfl]
  have ha : (a <<< 4 : Nat) = 2 ^ 4 * a := by
    rw [Nat.shiftLeft_eq]
    ring
  have hb : b < 2 ^ 4 := by omega
  rw [ha, ← Nat.mul_add_lt_is_or hb a]
  omega

theorem shiftLeft8_or_eq (a b : Nat) (hb : b < 256) : (a <<< 8) ||| b = 256 * a + b := by
  have hb2 : b < 2 ^ 8 := by omega
  rw [Nat.shiftLeft_eq]
  have h1 : a * 2 ^ 8 = 2 ^ 8 * a := mul_comm _ _
  rw [h1, ← Nat.mul_add_lt_is_or hb2 a]

theorem from_map_width (m : MapMem) : (Land.from_map m).width = (mget m 0 0 : Int) := rfl

theorem from_map_height (m : MapMem) :
    (Land.from_map m).height = (mget m 1 0 : Int) := rfl

theorem from_map_covered (m : MapMem) :
    (Land.from_map m).covered = (((mget m 8 0) &&& 1) != 0) := rfl

theorem from_map_texture (m : MapMem) :
    (Land.from_map m).texture =
      ⟨(mget m 6 0 : Nat), ((mget m 7 0) >>> 4 : Nat), ((mget m 7 0) &&& 15 : Nat)⟩ := rfl

theorem from_map_water (m : MapMem) :
    (Land.from_map m).water_height = (mget m 1 0 : Int) * 8 - 8 := rfl

theorem from_map_seed (m : MapMem) :
    (Land.from_map m).seed =
      (((((((0 <<< 8 ||| mget m 2 0) % 4294967296) <<< 8 ||| mget m 3 0) % 4294967296)
        <<< 8 ||| mget m 4 0) % 4294967296) <<< 8 ||| mget m 5 0) % 4294967296 := rfl

theorem roundtrip_fields (l : Land) (m : MapMem)
    (hw0 : 0 ≤ l.width) (hw : l.width ≤ 255)
    (hh0 : 0 ≤ l.height) (hh : l.height ≤ 255)
    (hs : l.seed < 4294967296)
    (hsp0 : 0 ≤ l.texture.spr_id) (hsp : l.texture.spr_id ≤ 255)
    (htw0 : 0 ≤ l.texture.width) (htw : l.texture.width ≤ 15)
    (hth0 : 0 ≤ l.texture.height) (hth : l.texture.height ≤ 15) :
    (Land.from_map (l.save_in_map m)).width = l.width ∧
    (Land.from_map (l.save_in_map m)).height = l.height ∧
    (Land.from_map (l.save_in_map m)).seed = l.seed ∧
    (Land.from_map (l.save_in_map m)).covered = l.covered ∧
    (Land.from_map (l.save_in_map m)).texture = l.texture ∧
    (Land.from_map (l.save_in_map m)).water_height = l.height * 8 - 8 := by
  refine ⟨?_, ?_, ?_, ?_, ?_, ?_⟩
  · rw [from_map_width, save_cell0, byte_store_id hw0 hw]
  · rw [from_map_height, save_cell1, byte_store_id hh0 hh]
  · rw [from_map_seed, save_cell2 l m, save_cell3 l m, save_cell4 l m, save_cell5 l m,
      seed_byte_store, seed_byte_store, seed_byte_store, seed_byte_store]
    rw [Nat.zero_shiftLeft, Nat.zero_or]
    rw [shiftLeft8_or_eq _ _ (Nat.mod_lt _ (by norm_num)),
      shiftLeft8_or_eq _ _ (Nat.mod_lt _ (by norm_num)),
      shiftLeft8_or_eq _ _ (Nat.mod_lt _ (by norm_num))]
    omega
  · rw [from_map_covered, save_cell8]
    cases hcov : l.covered <;> simp
  · rw [from_map_texture, save_cell6, save_cell7,
      texture_size_store htw0 htw hth0 hth,
      show l.texture = ⟨l.texture.spr_id, l.texture.width, l.texture.height⟩ from rfl]
    simp only [LandTexture.mk.injEq]
    refine ⟨?_, ?_, ?_⟩
    · omega
    · rw [Nat.shiftRight_eq_div_pow]
      omega
    · rw [show (15 : Nat) = 2 ^ 4 - 1 from rfl, Nat.and_pow_two_sub_one_eq_mod]
      omega
  · rw [from_map_water, save_cell1, byte_store_id hh0 hh]

theorem save_in_map_apply_ne (l : Land) (m : MapMem) {p : Int × Int}
    (h : ∀ k : Int, 0 ≤ k → k ≤ 8 → p ≠ (k, 0)) : l.save_in_map m p = m p := by
  unfold Land.save_in_map
  rw [show List.range 4 = [0, 1, 2, 3] from rfl]
  simp only [List.foldl_cons, List.foldl_nil]
  norm_num
  rw [mset_apply_ne _ _ _ _ (h 8 (by norm_num) (by norm_num)),
    mset_apply_ne _ _ _ _ (h 7 (by norm_num) (by norm_num)),
    mset_apply_ne _ _ _ _ (h 6 (by norm_num) (by norm_num)),
    mset_apply_ne _ _ _ _ (h 2 (by norm_num) (by norm_num)),
    mset_apply_ne _ _ _ _ (h 3 (by norm_num) (by norm_num)),
    mset_apply_ne _ _ _ _ (h 4 (by norm_num) (by norm_num)),
    mset_apply_ne _ _ _ _ (h 5 (by norm_num) (by norm_num)),
    mset_apply_ne _ _ _ _ (h 1 (by norm_num) (by norm_num)),
    mset_apply_ne _ _ _ _ (h 0 (by norm_num) (by norm_num))]

theorem save_apply_storeCell {l : Land} (m : MapMem) {p : Int × Int}
    (hp : isStoreCell l p) : l.save_in_map m p = m p := by
  obtain ⟨h1, h2, h3, h4, h5⟩ := hp
  apply save_in_map_apply_ne
  intro k hk1 hk2 he
  rw [Prod.ext_iff] at he
  simp only at he
  omega

theorem get_congr {l1 l2 : Land} (hW : l1.width = l2.width)
    (hH : l1.height = l2.height) (hC : l1.covered = l2.covered) (m : MapMem)
    (x y : Int) : l1.get m x y = l2.get m x y := by
  unfold Land.get
  rw [chunk_congr hW hH, hC]

theorem get_save_eq {l : Land} (m : MapMem) {x y : Int} (h : l.in_bounds x y = true) :
    l.get (l.save_in_map m) x y = l.get m x y := by
  rw [get_eq_testBit _ h, get_eq_testBit m h,
    save_apply_storeCell m (cellOf_isStoreCell h)]

/-! ### Concrete instances used by witnesses and counterexamples -/

/-- All-zero store. -/
def zeroMap : MapMem := fun _ => 0

/-- Store with every cell holding 7 (a second arbitrary initial store). -/
def sevenMap : MapMem := fun _ => 7

/-- A 1×1-chunk land. -/
def landW : Land := ⟨1, 1, 0, false, ⟨1, 2, 2⟩, 0⟩

/-- A 1×2-chunk land with the derived water height `2*8 - 8 = 8`. -/
def lC7 : Land := ⟨1, 2, 0, false, ⟨1, 2, 2⟩, 8⟩

/-- A land whose fields exceed the ranges representable in the saved header. -/
def lC6 : Land := ⟨300, 1, 5, false, ⟨300, 2, 16⟩, 0⟩

/-- Column pipeline stub returning 0 for every column. -/
def npZero : Nat → Int → Int → Int → Int := fun _ _ _ _ => 0

set_option maxRecDepth 10000

/-! ### Claim theorems -/

/-- C1: the claim states that `set_mask(m)` followed by `get_mask()` returns `m`
for every 64-bit mask, with the most significant byte of the mask at `base+0`
for both operations.  The code violates this: `set_mask` stores the LEAST
significant byte of the mask at `base+0` (the first row) while `get_mask`
reads `base+0` as the MOST significant byte, so the round-trip byte-reverses
the mask.  At the failing input `mask = 1` the round-trip returns
`2^56 = 72057594037927936`, not `1`.  The asymmetry is a slip: the paired bulk
accessors are plainly intended to be inverses (the program never notices only
because every mask it passes, `0` and `!0`, is byte-palindromic). -/
theorem C1_mask_roundtrip_bug :
    LandChunk.get_mask ⟨16, 0⟩ (LandChunk.set_mask ⟨16, 0⟩ zeroMap 1) =
        72057594037927936 ∧
      (72057594037927936 : Nat) ≠ 1 :=
  ⟨by decide, by norm_num⟩

/-- C2: for every land satisfying the size invariant and in-bounds `(x, y)`,
`set(x,y,s); get(x,y) = s` (both for `true` and `false`, as `s` ranges over
both), each set is idempotent, and a set at a different in-bounds coordinate
`(x2, y2)` does not change the value read at `(x, y)`. -/
theorem C2_set_get (l : Land) (m : MapMem) (x y x2 y2 : Int) (s s2 : Bool)
    (hsz : l.width * l.height * 8 + LAND_CHUNK_ADDR_RESERVE ≤ 32640)
    (hin : l.in_bounds x y = true) (hin2 : l.in_bounds x2 y2 = true)
    (hne : ¬(x2 = x ∧ y2 = y)) :
    l.get (l.set m x y s) x y = s ∧
    l.set (l.set m x y s) x y s = l.set m x y s ∧
    l.get (l.set m x2 y2 s2) x y = l.get m x y :=
  ⟨get_set_self m s hin, set_set_self m s, get_set_ne m s2 hne⟩

/-- Witness for C2 at the 1×1 land, `(x,y) = (3,4)`, `(x2,y2) = (5,6)`. -/
theorem C2_set_get_witness :
    landW.get (landW.set zeroMap 3 4 true) 3 4 = true ∧
    landW.set (landW.set zeroMap 3 4 true) 3 4 true = landW.set zeroMap 3 4 true ∧
    landW.get (landW.set zeroMap 5 6 false) 3 4 = landW.get zeroMap 3 4 :=
  C2_set_get landW zeroMap 3 4 5 6 true false (by decide) (by decide) (by decide)
    (by decide)

/-- C3: for every land and out-of-bounds `(x, y)`, `get(x,y)` returns the
`covered` flag, and `set(x,y,s)` is a no-op on the store (hence leaves the
value of `get` at every coordinate, in particular every in-bounds one,
unchanged). -/
theorem C3_oob (l : Land) (m : MapMem) (x y x2 y2 : Int) (s : Bool)
    (hout : l.in_bounds x y = false) (hin2 : l.in_bounds x2 y2 = true) :
    l.get m x y = l.covered ∧
    l.set m x y s = m ∧
    l.get (l.set m x y s) x2 y2 = l.get m x2 y2 := by
  refine ⟨get_oob m hout, set_oob m s hout, ?_⟩
  rw [set_oob m s hout]

/-- Witness for C3 at the 1×1 land, out-of-bounds `(9, 0)`, in-bounds `(1, 1)`. -/
theorem C3_oob_witness :
    landW.get sevenMap 9 0 = landW.covered ∧
    landW.set sevenMap 9 0 true = sevenMap ∧
    landW.get (landW.set sevenMap 9 0 true) 1 1 = landW.get sevenMap 1 1 :=
  C3_oob landW sevenMap 9 0 1 1 true (by decide) (by decide)

/-- C4 counterexample: the claim states that after `set_circle(cx,cy,r,true)`
every offset with `i² + j² ≤ r²` whose target is in bounds reads back `true`.
At `cx = cy = 0`, `r = 2`, offset `(i,j) = (2,0)`: `2·2 + 0·0 ≤ 2·2` holds and
the target `(2,0)` is in bounds of the 1×1 land, yet the loop iterates only
the half-open square `[-r,r)×[-r,r)`, never visits `i = 2`, and the pixel
stays `false` on the initially cleared store. -/
theorem C4_counterexample :
    (2 * 2 + 0 * 0 ≤ 2 * 2) ∧
    landW.in_bounds (0 + 2) (0 + 0) = true ∧
    landW.get (landW.set_circle zeroMap 0 0 2 true) (0 + 2) (0 + 0) = false :=
  ⟨by norm_num, by decide, by decide⟩

/-- C4 as amended: after `set_circle(cx,cy,r,true)`, `get(cx+i, cy+j) = true`
for every offset `(i,j)` in the iterated half-open square `[-r,r)×[-r,r)` with
`i² + j² ≤ r²` whose target is in bounds; and the value at every point outside
the closed bounding square `[cx-r, cx+r]×[cy-r, cy+r]` is unchanged. -/
theorem C4_set_circle (l : Land) (m : MapMem) (cx cy r i j x2 y2 : Int)
    (h1 : -r ≤ i) (h2 : i < r) (h3 : -r ≤ j) (h4 : j < r)
    (h5 : i * i + j * j ≤ r * r)
    (hin : l.in_bounds (cx + i) (cy + j) = true)
    (hout : ¬(cx - r ≤ x2 ∧ x2 ≤ cx + r ∧ cy - r ≤ y2 ∧ y2 ≤ cy + r)) :
    l.get (l.set_circle m cx cy r true) (cx + i) (cy + j) = true ∧
    l.get (l.set_circle m cx cy r true) x2 y2 = l.get m x2 y2 := by
  rw [set_circle_eq_setFold]
  constructor
  · exact setFold_get_mem _ _ hin (Or.inl (circleList_mem_of h1 h2 h3 h4 h5))
  · apply setFold_get_not_mem
    intro p hp hcon
    obtain ⟨i2, j2, k1, k2, k3, k4, k5, k6⟩ := circleList_mem_inv hp
    subst k6
    obtain ⟨e1, e2⟩ := hcon
    simp only at e1 e2
    exact hout ⟨by omega, by omega, by omega, by omega⟩

/-- Witness for C4 at the 1×1 land, centre `(4,4)`, radius 2, offset `(1,0)`,
outside point `(20, 20)`. -/
theorem C4_set_circle_witness :
    landW.get (landW.set_circle sevenMap 4 4 2 true) (4 + 1) (4 + 0) = true ∧
    landW.get (landW.set_circle sevenMap 4 4 2 true) 20 20 =
      landW.get sevenMap 20 20 :=
  C4_set_circle landW sevenMap 4 4 2 1 0 20 20 (by norm_num) (by norm_num)
    (by norm_num) (by norm_num) (by norm_num) (by decide) (by norm_num)

/-- C9: the fresh constructor `Land::new` aborts (its `assert!` fails, modelled
as `none`) exactly when the requested dimensions violate the size budget
`width*height*8 + LAND_CHUNK_ADDR_RESERVE ≤ 32640`; when the invariant holds
the construction succeeds (returns `some`), and every later operation of the
embedding is total, so no later abort exists. -/
theorem C9_new_aborts_iff (w h : Int) (t : LandTexture) (m : MapMem) :
    Land.new w h t m = none ↔ ¬(w * h * 8 + LAND_CHUNK_ADDR_RESERVE ≤ 32640) := by
  unfold Land.new
  by_cases hc : w * h * 8 + LAND_CHUNK_ADDR_RESERVE ≤ 32640 <;> simp [hc]

theorem chunk_grid_addr {l : Land} {cx cy : Int} (h1 : 0 ≤ cx) (h2 : cx < l.width)
    (h3 : 0 ≤ cy) (h4 : cy < l.height) :
    chunkAddr l (cx * 8) (cy * 8) = 16 + (cy * l.width + cx) * 8 := by
  unfold chunkAddr LAND_CHUNK_ADDR_RESERVE
  rw [Int.tdiv_eq_ediv (by omega : (0 : Int) ≤ cx * 8) (by norm_num),
    Int.tdiv_eq_ediv (by omega : (0 : Int) ≤ cy * 8) (by norm_num),
    Int.mul_ediv_cancel _ (by norm_num : (8 : Int) ≠ 0),
    Int.mul_ediv_cancel _ (by norm_num : (8 : Int) ≠ 0)]

/-- C5: for dimensions satisfying the size invariant, the store cells of the
chunks at distinct chunk coordinates `(cx1,cy1) ≠ (cx2,cy2)` inside
`[0,width)×[0,height)` never coincide — any row `r1` of the first chunk's
8-byte span and any row `r2` of the second's are different store cells after
the `(addr mod 240, addr div 240)` translation — and every such cell lies
inside the 240×136 store. -/
theorem C5_chunk_no_alias (l : Land) (cx1 cy1 cx2 cy2 r1 r2 : Int)
    (c1 c2 : LandChunk)
    (hsz : l.width * l.height * 8 + LAND_CHUNK_ADDR_RESERVE ≤ 32640)
    (h1 : 0 ≤ cx1) (h2 : cx1 < l.width) (h3 : 0 ≤ cy1) (h4 : cy1 < l.height)
    (h5 : 0 ≤ cx2) (h6 : cx2 < l.width) (h7 : 0 ≤ cy2) (h8 : cy2 < l.height)
    (hne : ¬(cx1 = cx2 ∧ cy1 = cy2))
    (hr1 : 0 ≤ r1) (hr18 : r1 < 8) (hr2 : 0 ≤ r2) (hr28 : r2 < 8)
    (hc1 : l.chunk (cx1 * 8) (cy1 * 8) = some c1)
    (hc2 : l.chunk (cx2 * 8) (cy2 * 8) = some c2) :
    (c1.map_x + r1, c1.map_y) ≠ (c2.map_x + r2, c2.map_y) ∧
    0 ≤ c1.map_x + r1 ∧ c1.map_x + r1 < 240 ∧
    0 ≤ c1.map_y ∧ c1.map_y < 136 := by
  rw [show LAND_CHUNK_ADDR_RESERVE = 16 from rfl] at hsz
  have hb1 : l.in_bounds (cx1 * 8) (cy1 * 8) = true :=
    in_bounds_iff.mpr ⟨by omega, by omega, by omega, by omega⟩
  have hb2 : l.in_bounds (cx2 * 8) (cy2 * 8) = true :=
    in_bounds_iff.mpr ⟨by omega, by omega, by omega, by omega⟩
  rw [chunk_eq_some hb1] at hc1
  rw [chunk_eq_some hb2] at hc2
  injection hc1 with hc1
  injection hc2 with hc2
  subst hc1
  subst hc2
  dsimp only
  rw [chunk_grid_addr h1 h2 h3 h4, chunk_grid_addr h5 h6 h7 h8]
  have hia : 0 ≤ cy1 * l.width + cx1 := by
    have := mul_nonneg h3 (by omega : (0 : Int) ≤ l.width)
    omega
  have hib : 0 ≤ cy2 * l.width + cx2 := by
    have := mul_nonneg h7 (by omega : (0 : Int) ≤ l.width)
    omega
  have hlta : cy1 * l.width + cx1 < l.width * l.height := by
    have e1 : cy1 * l.width ≤ (l.height - 1) * l.width :=
      mul_le_mul_of_nonneg_right (by omega) (by omega)
    have e2 : (l.height - 1) * l.width = l.height * l.width - l.width := by ring
    have e3 : l.height * l.width = l.width * l.height := mul_comm _ _
    omega
  obtain ⟨a1, a2, a3, a4⟩ := @addrCell_facts (16 + (cy1 * l.width + cx1) * 8)
    (by omega) ⟨2 + (cy1 * l.width + cx1), by ring⟩ r1 hr1 hr18
  obtain ⟨b1, b2, b3, b4⟩ := @addrCell_facts (16 + (cy2 * l.width + cx2) * 8)
    (by omega) ⟨2 + (cy2 * l.width + cx2), by ring⟩ r2 hr2 hr28
  refine ⟨?_, a1, a2, a3, ?_⟩
  · intro he
    rw [Prod.ext_iff] at he
    simp only at he
    have key : cy1 * l.width + cx1 = cy2 * l.width + cx2 := by omega
    obtain ⟨hcx, hcy⟩ := idx_inj h1 h2 h5 h6 key
    exact hne ⟨hcx, hcy⟩
  · omega

/-- Witness for C5 at the 1×2 land, chunks `(0,0)` and `(0,1)`, rows 0 and 0. -/
theorem C5_chunk_no_alias_witness :
    ((⟨16, 0⟩ : LandChunk).map_x + 0, (⟨16, 0⟩ : LandChunk).map_y) ≠
      ((⟨24, 0⟩ : LandChunk).map_x + 0, (⟨24, 0⟩ : LandChunk).map_y) ∧
    0 ≤ (⟨16, 0⟩ : LandChunk).map_x + 0 ∧ (⟨16, 0⟩ : LandChunk).map_x + 0 < 240 ∧
    0 ≤ (⟨16, 0⟩ : LandChunk).map_y ∧ (⟨16, 0⟩ : LandChunk).map_y < 136 :=
  C5_chunk_no_alias lC7 0 0 0 1 0 0 ⟨16, 0⟩ ⟨24, 0⟩ (by decide) (by decide)
    (by decide) (by decide) (by decide) (by decide) (by decide) (by decide)
    (by decide) (by decide) (by decide) (by decide) (by decide) (by decide)
    (by rfl) (by rfl)

/-- C6 counterexample: the claim states the save/load round-trip reproduces
every land's fields exactly.  For the constructible land `lC6` (its dimensions
satisfy the size invariant) with `width = 300`, `texture.spr_id = 300` and
`texture.height = 16`, the header encoding truncates: the width is stored as
`300 & 0xff = 44`, the sprite id is stored in a byte cell, and the texture
height collides with the width nibble, so the reloaded land differs. -/
theorem C6_counterexample :
    lC6.width * lC6.height * 8 + LAND_CHUNK_ADDR_RESERVE ≤ 32640 ∧
    (Land.from_map (lC6.save_in_map zeroMap)).width = 44 ∧
    lC6.width = 300 ∧
    (Land.from_map (lC6.save_in_map zeroMap)).texture.spr_id ≠ lC6.texture.spr_id ∧
    (Land.from_map (lC6.save_in_map zeroMap)).texture.height ≠ lC6.texture.height :=
  ⟨by decide, by decide, rfl, by decide, by decide⟩

/-- C6 as amended: for every land whose fields lie in the ranges the header
encodes — `width`, `height`, `texture.spr_id` in `[0, 255]`, `texture.width`,
`texture.height` in `[0, 15]`, and `seed` a `u32` — saving with `save_in_map`
and reconstructing with `from_map` yields identical dimensions, seed (32-bit
exact; cell `(2,0)` of the saved header holds the most significant byte),
covered flag and texture fields, and identical `get` results at every
in-bounds coordinate. -/
theorem C6_save_roundtrip (l : Land) (m : MapMem) (x y : Int)
    (hw0 : 0 ≤ l.width) (hw : l.width ≤ 255)
    (hh0 : 0 ≤ l.height) (hh : l.height ≤ 255)
    (hs : l.seed < 4294967296)
    (hsp0 : 0 ≤ l.texture.spr_id) (hsp : l.texture.spr_id ≤ 255)
    (htw0 : 0 ≤ l.texture.width) (htw : l.texture.width ≤ 15)
    (hth0 : 0 ≤ l.texture.height) (hth : l.texture.height ≤ 15)
    (hin : l.in_bounds x y = true) :
    (Land.from_map (l.save_in_map m)).width = l.width ∧
    (Land.from_map (l.save_in_map m)).height = l.height ∧
    (Land.from_map (l.save_in_map m)).seed = l.seed ∧
    (Land.from_map (l.save_in_map m)).covered = l.covered ∧
    (Land.from_map (l.save_in_map m)).texture = l.texture ∧
    mget (l.save_in_map m) 2 0 = l.seed / 16777216 % 256 ∧
    (Land.from_map (l.save_in_map m)).get (l.save_in_map m) x y = l.get m x y := by
  obtain ⟨f1, f2, f3, f4, f5, f6⟩ :=
    roundtrip_fields l m hw0 hw hh0 hh hs hsp0 hsp htw0 htw hth0 hth
  refine ⟨f1, f2, f3, f4, f5, ?_, ?_⟩
  · rw [save_cell2, seed_byte_store]
    norm_num
  · rw [get_congr f1 f2 f4 (l.save_in_map m) x y]
    exact get_save_eq m hin

/-- Witness for C6 at the 1×1 land and the all-7 store, pixel `(3, 4)`. -/
theorem C6_save_roundtrip_witness :
    (Land.from_map (landW.save_in_map sevenMap)).width = landW.width ∧
    (Land.from_map (landW.save_in_map sevenMap)).height = landW.height ∧
    (Land.from_map (landW.save_in_map sevenMap)).seed = landW.seed ∧
    (Land.from_map (landW.save_in_map sevenMap)).covered = landW.covered ∧
    (Land.from_map (landW.save_in_map sevenMap)).texture = landW.texture ∧
    mget (landW.save_in_map sevenMap) 2 0 = landW.seed / 16777216 % 256 ∧
    (Land.from_map (landW.save_in_map sevenMap)).get (landW.save_in_map sevenMap) 3 4 =
      landW.get sevenMap 3 4 :=
  C6_save_roundtrip landW sevenMap 3 4 (by decide) (by decide) (by decide) (by decide)
    (by decide) (by decide) (by decide) (by decide) (by decide) (by decide) (by decide)
    (by decide)

/-- C7 counterexample: the claim states each column is filled from
`min(h, height_budget - 1)` down to the bottom of the generation budget
(`budget = water_height - 2`).  `Land.generateSpecC7` follows those words; the
source instead clamps at `land_h - 1` and fills down to `land_h = height*8`.
For the 1×2 land (derived `water_height = 8`, so budget `6`) and any column
height (here the stub pipeline `npZero`), the source fills the bottom pixel
row 15 while the spec's description leaves it empty — a divergence that holds
for every column function, as `C7_generate_fill` shows, because
`min(h, budget - 1) ≤ 5 < 15`. -/
theorem C7_counterexample :
    lC7.water_height = lC7.height * 8 - 8 ∧
    lC7.get (lC7.generate npZero zeroMap) 0 15 = true ∧
    lC7.get (lC7.generateSpecC7 npZero zeroMap) 0 15 = false :=
  ⟨rfl, by decide, by decide⟩

/-- C7 as amended: in `generate()`, each in-bounds pixel `(x, y)` ends up
filled exactly when `min(h as i32, height*8 - 1) ≤ y` — the column is filled
solid from `min(h, height*8 - 1)` down to the bottom pixel row of the land
(`height*8 - 1`), not to the bottom of the generation budget; the budget
`water_height - 2` only scales `h` inside the abstracted noise pipeline
`np`. -/
theorem C7_generate_fill (np : Nat → Int → Int → Int → Int) (l : Land) (m : MapMem)
    (x y : Int) (hin : l.in_bounds x y = true) :
    l.get (l.generate np m) x y =
      decide (min (np l.seed (l.width * 8) l.water_height x) (l.height * 8 - 1) ≤ y) :=
  generate_get_char np l m hin

/-- Witness for C7 at the 1×2 land, the zero pipeline, pixel `(0, 15)`. -/
theorem C7_generate_fill_witness :
    lC7.get (lC7.generate npZero zeroMap) 0 15 =
      decide (min (npZero lC7.seed (lC7.width * 8) lC7.water_height 0)
        (lC7.height * 8 - 1) ≤ 15) :=
  C7_generate_fill npZero lC7 zeroMap 0 15 (by decide)

/-- C8: `generate()` is deterministic — two lands with identical `width`,
`height` and `seed` (and hence identical derived `water_height = height*8-8`,
the only other field `generate` reads; `texture` is not read by `generate`),
run with the same column pipeline `np` (the fixed pure function the
floating-point noise code computes from the seed and these fields), produce
identical `get_mask()` content for the chunk of every in-bounds pixel, from
any two initial stores. -/
theorem C8_generate_deterministic (np : Nat → Int → Int → Int → Int)
    (l1 l2 : Land) (m1 m2 : MapMem) (x y : Int) (c1 c2 : LandChunk)
    (hW : l1.width = l2.width) (hH : l1.height = l2.height) (hS : l1.seed = l2.seed)
    (hwh1 : l1.water_height = l1.height * 8 - 8)
    (hwh2 : l2.water_height = l2.height * 8 - 8)
    (hin : l1.in_bounds x y = true)
    (hc1 : l1.chunk x y = some c1) (hc2 : l2.chunk x y = some c2) :
    c1.get_mask (l1.generate np m1) = c2.get_mask (l2.generate np m2) := by
  have hwh : l1.water_height = l2.water_height := by rw [hwh1, hwh2, hH]
  have hg2 : l2.generate np m2 = l1.generate np m2 :=
    (generate_congr hW hH hS hwh np m2).symm
  have hcc : c1 = c2 := by
    rw [chunk_congr hW hH] at hc1
    rw [hc1] at hc2
    exact Option.some.inj hc2
  cases hcc
  rw [hg2]
  apply get_mask_congr
  intro i h0 h8
  obtain ⟨hx0, hxw, hy0, hyh⟩ := in_bounds_iff.mp hin
  exact generate_agree np m1 m2 (by omega) (by omega) _
    (chunkCell_isStoreCell hin hc1 i h0 h8)

/-- Witness for C8: the 1×2 land generated from the all-0 and the all-7
stores, chunk of pixel `(0, 0)`. -/
theorem C8_generate_deterministic_witness :
    LandChunk.get_mask ⟨16, 0⟩ (lC7.generate npZero zeroMap) =
      LandChunk.get_mask ⟨16, 0⟩ (lC7.generate npZero sevenMap) :=
  C8_generate_deterministic npZero lC7 lC7 zeroMap sevenMap 0 0 ⟨16, 0⟩ ⟨16, 0⟩ rfl
    rfl rfl (by decide) (by decide) (by decide) (by rfl) (by rfl)

/-- C10 (implicit): for every land with positive dimensions satisfying the
size invariant, immediately after `generate()` the bottom pixel row is fully
solid — `get(x, height*8 - 1) = true` for every column `x` — because the
per-column fill start is clamped to at most `height*8 - 1`, so every column
contains at least one filled pixel. -/
theorem C10_bottom_row_solid (np : Nat → Int → Int → Int → Int) (l : Land)
    (m : MapMem) (x : Int)
    (hw : 1 ≤ l.width) (hh : 1 ≤ l.height)
    (hsz : l.width * l.height * 8 + LAND_CHUNK_ADDR_RESERVE ≤ 32640)
    (hx0 : 0 ≤ x) (hxw : x < l.width * 8) :
    l.get (l.generate np m) x (l.height * 8 - 1) = true := by
  have hin : l.in_bounds x (l.height * 8 - 1) = true :=
    in_bounds_iff.mpr ⟨hx0, hxw, by omega, by omega⟩
  rw [generate_get_char np l m hin]
  simp [min_le_right]

/-- Witness for C10 at the 1×1 land, column 0. -/
theorem C10_bottom_row_solid_witness :
    landW.get (landW.generate npZero zeroMap) 0 (landW.height * 8 - 1) = true :=
  C10_bottom_row_solid npZero landW zeroMap 0 (by decide) (by decide) (by decide)
    (by decide) (by decide)

end Tic80Land
